import Mathlib

/-!
Shallow embedding of the devjournal core, translated from the Rust sources:

* `SelectionList` — the ordered container with an optional selection cursor
  (src/app/list.rs);
* the crypto envelope — key derivation and the AES-256-GCM wrapping with a
  trailing 12-byte nonce (src/crypto.rs), with the AEAD primitive of the
  external `aes_gcm` crate modelled as a parameter satisfying its contract;
* the domain model (Task, SubProject, Project, Journal) and the persistence
  layer (src/app/data.rs, src/ui/events.rs), with the external `bincode`
  serializer modelled by an executable length-prefixed token codec.

Rust `usize` values are modelled as `Nat`; operations that can panic in the
source (out-of-bounds `Vec` indexing, `usize` underflow on `len() - 1`) are
modelled as partial, returning `none` / `.panic` exactly on the inputs where
the source would abort.  Rust strings that only flow into the cipher or are
compared for equality are modelled by their UTF-8 byte sequences
(`List Nat`); every string literal in the embedded code is ASCII, where the
codepoint sequence used by `strBytes` coincides with the UTF-8 bytes.
-/

namespace DevJournal

/-- Result type mirroring the source's `Result<T, Error>` together with an
explicit `panic` outcome for the places where the Rust code would abort.
Error messages are represented by an enumeration of the distinct message
strings occurring in the source. -/
inductive RErr where
  | indexOutOfRange
  | noSelection
  | shouldHaveItem
  | fileTooSmall
  | decryptionFailure
  | keySizeError
  | ioError
  | deserializationError
  | createFileFailed
deriving DecidableEq

inductive RRes (α : Type) where
  | ok (value : α)
  | err (e : RErr)
  | panic
deriving DecidableEq

/-- Insertion at an index, mirroring `Vec::insert` on in-bounds indices
(`insert_item` guards the call so the out-of-range clause is never used by a
successful operation). -/
def insertAt {α : Type} : Nat → α → List α → List α
  | 0, x, xs => x :: xs
  | _ + 1, x, [] => [x]
  | n + 1, x, y :: ys => y :: insertAt n x ys

/-- Exchange of two in-bounds positions, mirroring `Vec::swap`; on an
out-of-bounds index it returns the list unchanged, and every call site below
guards the indices so that this clause is unreachable. -/
def listSwap {α : Type} (xs : List α) (i j : Nat) : List α :=
  match xs.get? i, xs.get? j with
  | some a, some b => (xs.set i b).set j a
  | _, _ => xs

/-- The `SelectionList<T>` struct of src/app/list.rs: an ordered item vector
plus an optional selection index. -/
structure SelectionList (α : Type) where
  items : List α
  selection : Option Nat
deriving DecidableEq

namespace SelectionList

/-- Source `From<Vec<T>>`: wraps a vector with no selection. -/
def fromVec {α : Type} (xs : List α) : SelectionList α :=
  { items := xs, selection := none }

/-- Source `len`. -/
def len {α : Type} (l : SelectionList α) : Nat :=
  l.items.length

/-- Source `push_item`: appends at the end, selection untouched. -/
def pushItem {α : Type} (l : SelectionList α) (x : α) : SelectionList α :=
  { l with items := l.items ++ [x] }

/-- Source `insert_item`: inserts at the explicit index (default 0),
optionally selecting it; `Vec::insert` panics (`none`) when the index
exceeds the length. -/
def insertItem {α : Type} (l : SelectionList α) (index : Option Nat) (x : α)
    (select : Bool) : Option (SelectionList α) :=
  let i := index.getD 0
  if i ≤ l.items.length then
    some { items := insertAt i x l.items,
           selection := if select then some i else l.selection }
  else
    none

/-- Source `add_item`: inserts after the current selection (or appends when
nothing is selected or the selection is last).  The source computes
`self.len() - 1`, which underflows (debug panic) when a selection exists on
an empty item vector; that state violates the selection invariant and is
modelled as `none`. -/
def addItem {α : Type} (l : SelectionList α) (x : α) (select : Bool) :
    Option (SelectionList α) :=
  match l.selection with
  | some index =>
    if l.items.length = 0 then
      none
    else if index ≥ l.items.length - 1 then
      let l2 := l.pushItem x
      some (if select then { l2 with selection := some (l2.items.length - 1) } else l2)
    else
      (l.insertItem (some (index + 1)) x false).map fun l2 =>
        if select then { l2 with selection := some (index + 1) } else l2
  | none =>
    let l2 := l.pushItem x
    some (if select then { l2 with selection := some (l2.items.length - 1) } else l2)

/-- Source `clear_items`: replaces the item vector with an empty one.  Note
that the source does not touch `selection`. -/
def clearItems {α : Type} (l : SelectionList α) : SelectionList α :=
  { l with items := [] }

/-- Source `select`: errors on an out-of-range index, otherwise sets the
selection. -/
def select {α : Type} (l : SelectionList α) (index : Nat) : RRes (SelectionList α) :=
  if index ≥ l.items.length then
    .err .indexOutOfRange
  else
    .ok { l with selection := some index }

/-- Source `deselect`. -/
def deselect {α : Type} (l : SelectionList α) : SelectionList α :=
  { l with selection := none }

/-- Source `next_index`: pure preview of cyclic forward navigation. -/
def nextIndex {α : Type} (l : SelectionList α) : Option Nat :=
  match l.selection with
  | none => if l.items.isEmpty then none else some 0
  | some index => if index + 1 ≥ l.items.length then some 0 else some (index + 1)

/-- Source `prev_index`: pure preview of cyclic backward navigation
(`self.len() - 1` is `Nat` subtraction; both subtractions are guarded by a
nonempty item vector whenever the selection invariant holds). -/
def prevIndex {α : Type} (l : SelectionList α) : Option Nat :=
  match l.selection with
  | none => if l.items.isEmpty then none else some (l.items.length - 1)
  | some index => if index = 0 then some (l.items.length - 1) else some (index - 1)

/-- Source `select_next`. -/
def selectNext {α : Type} (l : SelectionList α) : SelectionList α :=
  { l with selection := l.nextIndex }

/-- Source `select_prev`. -/
def selectPrev {α : Type} (l : SelectionList α) : SelectionList α :=
  { l with selection := l.prevIndex }

/-- Source `shift_next`: swap the selected item forward, or relocate the
last item to the front.  The guard `selected < self.items.len() - 1` is
evaluated on an empty vector only in invariant-violating states, where the
source aborts (debug underflow / out-of-bounds swap); modelled as
`.panic`. -/
def shiftNext {α : Type} (l : SelectionList α) : RRes (SelectionList α) :=
  match l.selection with
  | none => .err .noSelection
  | some selected =>
    if l.items.length = 0 then
      .panic
    else if selected < l.items.length - 1 then
      .ok { items := listSwap l.items selected (selected + 1),
            selection := some (selected + 1) }
    else
      match l.items.getLast? with
      | none => .err .shouldHaveItem
      | some element =>
        .ok { items := element :: l.items.dropLast, selection := some 0 }

/-- Source `shift_prev`: swap the selected item backward, or relocate the
first item to the end.  `Vec::swap`/`Vec::remove` panic on out-of-bounds
indices, reached only in invariant-violating states. -/
def shiftPrev {α : Type} (l : SelectionList α) : RRes (SelectionList α) :=
  match l.selection with
  | none => .err .noSelection
  | some selected =>
    if selected > 0 then
      if selected < l.items.length then
        .ok { items := listSwap l.items selected (selected - 1),
              selection := some (selected - 1) }
      else
        .panic
    else
      match l.items with
      | [] => .panic
      | h :: t =>
        let items2 := t ++ [h]
        .ok { items := items2, selection := some (items2.length - 1) }

/-- Source `pop_selected`: removes and returns the selected item, clamping
or clearing the selection; `Vec::remove` panics (`none`) when the selection
is out of bounds. -/
def popSelected {α : Type} (l : SelectionList α) : Option (Option α × SelectionList α) :=
  match l.selection with
  | none => some (none, l)
  | some index =>
    if h : index < l.items.length then
      let result := l.items.get ⟨index, h⟩
      let items2 := l.items.eraseIdx index
      let sel2 := if items2.isEmpty then none
        else if index ≥ items2.length then some (items2.length - 1)
        else l.selection
      some (some result, { items := items2, selection := sel2 })
    else
      none

/-- Source `impl Add for SelectionList`: appends the two item vectors and
rebuilds through `From<Vec<T>>`, so the selection is reset. -/
def concat {α : Type} (a b : SelectionList α) : SelectionList α :=
  fromVec (a.items ++ b.items)

/-- Invariant I1 as a boolean: the selection, when present, is a valid
index. -/
def invariantB {α : Type} (l : SelectionList α) : Bool :=
  match l.selection with
  | none => true
  | some i => decide (i < l.items.length)

/-- Invariant I1: `selection` is `None` or a valid index `< items.len()`. -/
def invariant {α : Type} (l : SelectionList α) : Prop :=
  invariantB l = true

instance {α : Type} (l : SelectionList α) : Decidable (invariant l) := by
  unfold invariant
  infer_instance

/-- The public mutating operations named by the specification. -/
inductive Op (α : Type) where
  | pushItem (x : α)
  | addItem (x : α) (select : Bool)
  | insertItem (index : Option Nat) (x : α) (select : Bool)
  | clearItems
  | select (index : Nat)
  | deselect
  | selectNext
  | selectPrev
  | shiftNext
  | shiftPrev
  | popSelected
  | concat (other : SelectionList α)

/-- One public operation applied to a state; `none` models a panic.  An
operation returning `Err` leaves the state unchanged, exactly as in the
source (every `Err` return happens before any mutation). -/
def applyOp {α : Type} (op : Op α) (l : SelectionList α) : Option (SelectionList α) :=
  match op with
  | .pushItem x => some (l.pushItem x)
  | .addItem x s => l.addItem x s
  | .insertItem i x s => l.insertItem i x s
  | .clearItems => some l.clearItems
  | .select i =>
    match l.select i with
    | .ok l2 => some l2
    | .err _ => some l
    | .panic => none
  | .deselect => some l.deselect
  | .selectNext => some l.selectNext
  | .selectPrev => some l.selectPrev
  | .shiftNext =>
    match l.shiftNext with
    | .ok l2 => some l2
    | .err _ => some l
    | .panic => none
  | .shiftPrev =>
    match l.shiftPrev with
    | .ok l2 => some l2
    | .err _ => some l
    | .panic => none
  | .popSelected => l.popSelected.map (fun p => p.2)
  | .concat other => some (l.concat other)

/-- A sequence of public operations run from a state. -/
def run {α : Type} (ops : List (Op α)) (l : SelectionList α) : Option (SelectionList α) :=
  match ops with
  | [] => some l
  | op :: rest =>
    match applyOp op l with
    | some l2 => run rest l2
    | none => none

/-- Source-faithful iteration of `select_next`. -/
def selectNextIter {α : Type} : Nat → SelectionList α → SelectionList α
  | 0, l => l
  | n + 1, l => selectNextIter n l.selectNext

end SelectionList

/-! Crypto envelope (src/crypto.rs).  Byte buffers and UTF-8 password bytes
are `List Nat`.  The AES-256-GCM primitive of the external `aes_gcm` crate
is modelled as a parameter (`Aead`) satisfying the crate's contract: a
total authenticated encryption whose ciphertext carries a 16-byte tag, and
whose decryption inverts it; `cipher.encrypt` on valid inputs never fails
and is modelled total. -/

def NONCE_SIZE : Nat := 12

/-- Codepoints of an ASCII string literal, equal to its UTF-8 bytes for all
literals appearing in the source. -/
def strBytes (s : String) : List Nat :=
  s.data.map Char.toNat

/-- The `fixed_key.splice(0..key.len(), key)` step of `get_cipher`: a
32-byte zero buffer whose first `key.len()` bytes are replaced by the
password bytes.  `Vec::splice` panics (`none`) when the range end
`key.len()` exceeds the buffer length 32. -/
def spliceKey (key : List Nat) : Option (List Nat) :=
  if key.length ≤ 32 then
    some (key ++ List.replicate (32 - key.length) 0)
  else
    none

/-- Source `get_cipher`: derives the 32-byte key (standing in for the
`Aes256Gcm` cipher value) from the password bytes;
`Aes256Gcm::new_from_slice` rejects any key whose length is not 32. -/
def getCipher (key : List Nat) : RRes (List Nat) :=
  match spliceKey key with
  | none => .panic
  | some fixedKey =>
    if fixedKey.length = 32 then .ok fixedKey else .err .keySizeError

/-- Interface of the external AES-256-GCM implementation: `enc key nonce
plaintext` is the ciphertext-plus-tag; `dec` authenticates and inverts it.
The crate's contract — the ciphertext is 16 bytes longer than the
plaintext, and decryption inverts encryption — is taken as a hypothesis by
the theorems below and discharged on the concrete instance `toyAead`. -/
structure Aead where
  enc : List Nat → List Nat → List Nat → List Nat
  dec : List Nat → List Nat → List Nat → Option (List Nat)

/-- The AEAD contract assumed of the external crate. -/
def AeadContract (A : Aead) : Prop :=
  (∀ k n p, (A.enc k n p).length = p.length + 16) ∧
  (∀ k n p, A.dec k n (A.enc k n p) = some p)

/-- Source `encrypt`: derive the cipher, encrypt under a fresh random nonce
(modelled as the explicit `nonce` argument), and append the nonce to the
ciphertext. -/
def encrypt (A : Aead) (nonce : List Nat) (plaintext : List Nat) (key : List Nat) :
    RRes (List Nat) :=
  match getCipher key with
  | .panic => .panic
  | .err e => .err e
  | .ok k => .ok (A.enc k nonce plaintext ++ nonce)

/-- Source `decrypt`: derive the cipher, split the trailing `NONCE_SIZE`
bytes off as the nonce (`saturating_sub`, rejecting blobs of at most 12
bytes), then decrypt and authenticate the remainder. -/
def decrypt (A : Aead) (ciphertext : List Nat) (key : List Nat) : RRes (List Nat) :=
  match getCipher key with
  | .panic => .panic
  | .err e => .err e
  | .ok k =>
    let splitPos := ciphertext.length - NONCE_SIZE
    if splitPos = 0 then
      .err .fileTooSmall
    else
      match A.dec k (ciphertext.drop splitPos) (ciphertext.take splitPos) with
      | some plaintext => .ok plaintext
      | none => .err .decryptionFailure

/-- A concrete instance of the AEAD interface used to evaluate the embedded
functions on closed inputs: the tag is 16 zero bytes and decryption strips
it.  It satisfies `AeadContract` (proved below). -/
def toyAead : Aead where
  enc := fun _ _ p => p ++ List.replicate 16 0
  dec := fun _ _ c => if 16 ≤ c.length then some (c.take (c.length - 16)) else none

/-! Domain model (src/app/data.rs).  Rust `String` fields are modelled by
their UTF-8 byte sequences.  The two `#[serde(skip)]` UI-widget fields of
`Project` (`prompt`, `prompt_request`) are omitted: they are never
persisted, and `Project::clone` resets them to their defaults, so on the
modelled fields `clone` is the identity. -/

structure Task where
  desc : List Nat
  createdAt : List Nat
  completedAt : Option (List Nat)
deriving DecidableEq

def Task.new (desc : List Nat) : Task :=
  { desc := desc, createdAt := strBytes "2020-02-02 12:00:00", completedAt := none }

structure SubProject where
  name : List Nat
  tasks : SelectionList Task
deriving DecidableEq

/-- Source `impl Default for SubProject`. -/
def SubProject.default : SubProject :=
  { name := strBytes "Tasks", tasks := SelectionList.fromVec [] }

def DEFAULT_WIDTH_PERCENT : Nat := 40

structure Project where
  name : List Nat
  password : List Nat
  subprojects : SelectionList SubProject
  focusedWidthPercent : Nat
  splitVertical : Bool
deriving DecidableEq

/-- Source `impl Default for Project`. -/
def Project.default : Project :=
  { name := strBytes "New Project", password := [],
    subprojects := SelectionList.fromVec [SubProject.default],
    focusedWidthPercent := DEFAULT_WIDTH_PERCENT, splitVertical := false }

structure Journal where
  name : List Nat
  password : List Nat
  projects : SelectionList Project
deriving DecidableEq

/-- Source `impl Default for Journal`: one default project, then
`select_next()`, which selects index 0. -/
def Journal.default : Journal :=
  { name := strBytes "New Journal", password := [],
    projects := (SelectionList.fromVec [Project.default]).selectNext }

/-- Source `Journal::new`: the default journal with the given name. -/
def Journal.new (name : List Nat) : Journal :=
  { Journal.default with name := name }

/-- Source `impl From<Project> for Journal`: promotes a standalone project
into a one-project journal carrying the project's name and password. -/
def Journal.fromProject (p : Project) : Journal :=
  { name := p.name, password := p.password, projects := SelectionList.fromVec [p] }

/-- Source `impl Add for Journal`: keep the left name and password,
concatenate the project lists (selection reset by `SelectionList`
concatenation). -/
def Journal.add (a b : Journal) : Journal :=
  { name := a.name, password := a.password, projects := a.projects.concat b.projects }

/-! Binary serialization.  The external `bincode` crate is modelled by an
executable injective token codec: integers are single tokens, sequences are
length-prefixed, options are tagged, and struct fields are encoded in
declaration order (the same shape as bincode's format, over abstract tokens
instead of little-endian bytes).  Deserialization of a full value rejects
trailing tokens. -/

def encNat (n : Nat) : List Nat :=
  [n]

def decNat : List Nat → Option (Nat × List Nat)
  | [] => none
  | t :: rest => some (t, rest)

def encBool (b : Bool) : List Nat :=
  [if b then 1 else 0]

def decBool : List Nat → Option (Bool × List Nat)
  | 0 :: rest => some (false, rest)
  | 1 :: rest => some (true, rest)
  | _ => none

def encOption {α : Type} (enc : α → List Nat) : Option α → List Nat
  | none => [0]
  | some x => 1 :: enc x

def decOption {α : Type} (dec : List Nat → Option (α × List Nat)) :
    List Nat → Option (Option α × List Nat)
  | 0 :: rest => some (none, rest)
  | 1 :: rest => (dec rest).map fun p => (some p.1, p.2)
  | _ => none

def encListTok {α : Type} (enc : α → List Nat) (xs : List α) : List Nat :=
  xs.length :: (xs.map enc).flatten

def decCount {α : Type} (dec : List Nat → Option (α × List Nat)) :
    Nat → List Nat → Option (List α × List Nat)
  | 0, input => some ([], input)
  | n + 1, input =>
    match dec input with
    | none => none
    | some (x, rest) =>
      match decCount dec n rest with
      | none => none
      | some (xs, rest2) => some (x :: xs, rest2)

def decListTok {α : Type} (dec : List Nat → Option (α × List Nat))
    (input : List Nat) : Option (List α × List Nat) :=
  match decNat input with
  | none => none
  | some (n, rest) => decCount dec n rest

def encBytes (s : List Nat) : List Nat :=
  encListTok encNat s

def decBytes (input : List Nat) : Option (List Nat × List Nat) :=
  decListTok decNat input

def encSL {α : Type} (enc : α → List Nat) (l : SelectionList α) : List Nat :=
  encListTok enc l.items ++ encOption encNat l.selection

def decSL {α : Type} (dec : List Nat → Option (α × List Nat))
    (input : List Nat) : Option (SelectionList α × List Nat) :=
  match decListTok dec input with
  | none => none
  | some (items, r1) =>
    match decOption decNat r1 with
    | none => none
    | some (sel, r2) => some (SelectionList.mk items sel, r2)

def encTask (t : Task) : List Nat :=
  encBytes t.desc ++ encBytes t.createdAt ++ encOption encBytes t.completedAt

def decTask (input : List Nat) : Option (Task × List Nat) :=
  match decBytes input with
  | none => none
  | some (desc, r1) =>
    match decBytes r1 with
    | none => none
    | some (createdAt, r2) =>
      match decOption decBytes r2 with
      | none => none
      | some (completedAt, r3) => some (Task.mk desc createdAt completedAt, r3)

def encSubProject (s : SubProject) : List Nat :=
  encBytes s.name ++ encSL encTask s.tasks

def decSubProject (input : List Nat) : Option (SubProject × List Nat) :=
  match decBytes input with
  | none => none
  | some (name, r1) =>
    match decSL decTask r1 with
    | none => none
    | some (tasks, r2) => some (SubProject.mk name tasks, r2)

def encProject (p : Project) : List Nat :=
  encBytes p.name ++ encBytes p.password ++ encSL encSubProject p.subprojects ++
    encNat p.focusedWidthPercent ++ encBool p.splitVertical

def decProject (input : List Nat) : Option (Project × List Nat) :=
  match decBytes input with
  | none => none
  | some (name, r1) =>
    match decBytes r1 with
    | none => none
    | some (password, r2) =>
      match decSL decSubProject r2 with
      | none => none
      | some (subprojects, r3) =>
        match decNat r3 with
        | none => none
        | some (width, r4) =>
          match decBool r4 with
          | none => none
          | some (split, r5) => some (Project.mk name password subprojects width split, r5)

def encJournal (j : Journal) : List Nat :=
  encBytes j.name ++ encBytes j.password ++ encSL encProject j.projects

def decJournal (input : List Nat) : Option (Journal × List Nat) :=
  match decBytes input with
  | none => none
  | some (name, r1) =>
    match decBytes r1 with
    | none => none
    | some (password, r2) =>
      match decSL decProject r2 with
      | none => none
      | some (projects, r3) => some (Journal.mk name password projects, r3)

/-- Serialization of a `Journal` (model of `bincode::serialize`). -/
def serJournal (j : Journal) : List Nat :=
  encJournal j

/-- Deserialization of a `Journal` (model of `bincode::deserialize`),
requiring the whole input to be consumed. -/
def deserJournal (bytes : List Nat) : Option Journal :=
  match decJournal bytes with
  | some (j, []) => some j
  | _ => none

/-- Serialization of a standalone `Project`. -/
def serProject (p : Project) : List Nat :=
  encProject p

/-- Deserialization of a standalone `Project`. -/
def deserProject (bytes : List Nat) : Option Project :=
  match decProject bytes with
  | some (p, []) => some p
  | _ => none

/-- Interface of the journal serializer used by the persistence layer; the
roundtrip law is a hypothesis of the theorems below, discharged on the
concrete `journalCodec`. -/
structure Codec where
  ser : Journal → List Nat
  deser : List Nat → Option Journal

/-- The serializer contract assumed of the external `bincode` crate. -/
def CodecContract (C : Codec) : Prop :=
  ∀ j, C.deser (C.ser j) = some j

/-- The concrete token codec packaged under the `Codec` interface. -/
def journalCodec : Codec :=
  { ser := serJournal, deser := deserJournal }

/-! Persistence layer.  The data directory is modelled as a map from file
names (`datadir.join(name)` is the identity on names, since all paths live
in the one directory) to file contents; `fs::write` always succeeds in the
model and `fs::read` fails exactly when the file is absent. -/

def Fs : Type :=
  List Nat → Option (List Nat)

/-- Overwrite-or-create a file, as `fs::write` does. -/
def fsWrite (fs : Fs) (path blob : List Nat) : Fs :=
  fun q => if q = path then some blob else fs q

/-- Source `DataSerialize::save_encrypt`: bincode-serialize, encrypt, write
to the path. -/
def saveEncrypt (C : Codec) (A : Aead) (nonce : List Nat) (fs : Fs) (path : List Nat)
    (j : Journal) (key : List Nat) : RRes Fs :=
  match encrypt A nonce (C.ser j) key with
  | .ok blob => .ok (fsWrite fs path blob)
  | .err e => .err e
  | .panic => .panic

/-- Source `DataDeserialize::load_decrypt`: read the file, decrypt,
bincode-deserialize. -/
def loadDecrypt (C : Codec) (A : Aead) (fs : Fs) (path : List Nat) (key : List Nat) :
    RRes Journal :=
  match fs path with
  | none => .err .ioError
  | some blob =>
    match decrypt A blob key with
    | .ok bytes =>
      match C.deser bytes with
      | some j => .ok j
      | none => .err .deserializationError
    | .err e => .err e
    | .panic => .panic

/-- Source `load_state` (src/ui/events.rs): if the file is missing, first
materialize `Journal::new(name)` there via `save_encrypt` (mapping any
failure to a "failed to create new file" error); then `load_decrypt` it;
on `merge` combine it into the in-memory journal via `Add` (the source
clones the journal first, which is the identity on the modelled fields);
finally overwrite the resulting journal's password with the key that was
used.  Returns the updated file system together with the new in-memory
journal. -/
def loadState (C : Codec) (A : Aead) (nonce : List Nat) (fs : Fs) (journal : Journal)
    (name : List Nat) (key : List Nat) (merge : Bool) : RRes (Fs × Journal) :=
  let filepath := name
  let created : RRes Fs :=
    match fs filepath with
    | none =>
      match saveEncrypt C A nonce fs filepath (Journal.new name) key with
      | .ok fs2 => .ok fs2
      | .err _ => .err .createFileFailed
      | .panic => .panic
    | some _ => .ok fs
  match created with
  | .err e => .err e
  | .panic => .panic
  | .ok fs2 =>
    match loadDecrypt C A fs2 filepath key with
    | .err e => .err e
    | .panic => .panic
    | .ok loaded =>
      let j1 := if merge then journal.add loaded else loaded
      .ok (fs2, { j1 with password := key })


theorem decNat_enc (n : Nat) (rest : List Nat) : decNat (encNat n ++ rest) = some (n, rest) :=
  rfl

theorem decBool_enc (b : Bool) (rest : List Nat) :
    decBool (encBool b ++ rest) = some (b, rest) := by
  cases b <;> rfl

theorem decOption_enc {α : Type} (enc : α → List Nat)
    (dec : List Nat → Option (α × List Nat))
    (h : ∀ x rest, dec (enc x ++ rest) = some (x, rest)) (o : Option α) (rest : List Nat) :
    decOption dec (encOption enc o ++ rest) = some (o, rest) := by
  cases o with
  | none => rfl
  | some x => simp [encOption, decOption, h]

theorem decCount_enc {α : Type} (enc : α → List Nat)
    (dec : List Nat → Option (α × List Nat))
    (h : ∀ x rest, dec (enc x ++ rest) = some (x, rest)) (xs : List α) (rest : List Nat) :
    decCount dec xs.length ((xs.map enc).flatten ++ rest) = some (xs, rest) := by
  induction xs generalizing rest with
  | nil => rfl
  | cons x xs ih =>
    simp only [List.map_cons, List.flatten, List.length_cons, List.append_assoc, decCount, h]
    simp [ih]

theorem decListTok_enc {α : Type} (enc : α → List Nat)
    (dec : List Nat → Option (α × List Nat))
    (h : ∀ x rest, dec (enc x ++ rest) = some (x, rest)) (xs : List α) (rest : List Nat) :
    decListTok dec (encListTok enc xs ++ rest) = some (xs, rest) := by
  simp [encListTok, decListTok, decNat, decCount_enc enc dec h]

theorem decBytes_enc (s : List Nat) (rest : List Nat) :
    decBytes (encBytes s ++ rest) = some (s, rest) :=
  decListTok_enc encNat decNat decNat_enc s rest

theorem decSL_enc {α : Type} (enc : α → List Nat)
    (dec : List Nat → Option (α × List Nat))
    (h : ∀ x rest, dec (enc x ++ rest) = some (x, rest)) (l : SelectionList α)
    (rest : List Nat) :
    decSL dec (encSL enc l ++ rest) = some (l, rest) := by
  simp [encSL, decSL, List.append_assoc, decListTok_enc enc dec h,
    decOption_enc encNat decNat decNat_enc]

theorem decTask_enc (t : Task) (rest : List Nat) :
    decTask (encTask t ++ rest) = some (t, rest) := by
  simp [encTask, decTask, List.append_assoc, decBytes_enc,
    decOption_enc encBytes decBytes decBytes_enc]

theorem decSubProject_enc (s : SubProject) (rest : List Nat) :
    decSubProject (encSubProject s ++ rest) = some (s, rest) := by
  simp [encSubProject, decSubProject, List.append_assoc, decBytes_enc,
    decSL_enc encTask decTask decTask_enc]

theorem decProject_enc (p : Project) (rest : List Nat) :
    decProject (encProject p ++ rest) = some (p, rest) := by
  simp [encProject, decProject, List.append_assoc, decBytes_enc,
    decSL_enc encSubProject decSubProject decSubProject_enc, decNat_enc, decBool_enc]

theorem decJournal_enc (j : Journal) (rest : List Nat) :
    decJournal (encJournal j ++ rest) = some (j, rest) := by
  simp [encJournal, decJournal, List.append_assoc, decBytes_enc,
    decSL_enc encProject decProject decProject_enc]

theorem deserJournal_ser (j : Journal) : deserJournal (serJournal j) = some j := by
  have h := decJournal_enc j []
  simp only [List.append_nil] at h
  simp [deserJournal, serJournal, h]

theorem deserProject_ser (p : Project) : deserProject (serProject p) = some p := by
  have h := decProject_enc p []
  simp only [List.append_nil] at h
  simp [deserProject, serProject, h]

theorem journalCodec_contract : CodecContract journalCodec :=
  fun j => deserJournal_ser j

theorem take_length_append {α : Type} (xs ys : List α) : (xs ++ ys).take xs.length = xs := by
  induction xs with
  | nil => rfl
  | cons x xs ih => simp [ih]

theorem drop_length_append {α : Type} (xs ys : List α) : (xs ++ ys).drop xs.length = ys := by
  induction xs with
  | nil => rfl
  | cons x xs ih => simp [ih]

theorem toyAead_contract : AeadContract toyAead := by
  constructor
  · intro k n p
    simp [toyAead]
  · intro k n p
    simp only [toyAead]
    have h16 : 16 ≤ (p ++ List.replicate 16 0).length := by simp
    rw [if_pos h16]
    have hl : (p ++ List.replicate 16 0).length - 16 = p.length := by simp
    rw [hl, take_length_append]

theorem insertAt_length {α : Type} (i : Nat) (x : α) (xs : List α) :
    (insertAt i x xs).length = xs.length + 1 := by
  induction xs generalizing i with
  | nil => cases i <;> rfl
  | cons y ys ih =>
    cases i with
    | zero => rfl
    | succ i => simp [insertAt, ih]

theorem insertAt_get? {α : Type} (i : Nat) (x : α) (xs : List α) (h : i ≤ xs.length) :
    (insertAt i x xs).get? i = some x := by
  induction xs generalizing i with
  | nil =>
    cases i with
    | zero => rfl
    | succ i => exact absurd h (by simp)
  | cons y ys ih =>
    cases i with
    | zero => rfl
    | succ i =>
      have h2 : i ≤ ys.length := by simpa using h
      simpa [insertAt] using ih i h2

theorem eraseIdx_length_of_lt {α : Type} (xs : List α) (i : Nat) (h : i < xs.length) :
    (xs.eraseIdx i).length = xs.length - 1 := by
  induction xs generalizing i with
  | nil => simp at h
  | cons y ys ih =>
    cases i with
    | zero => simp [List.eraseIdx]
    | succ i =>
      have h2 : i < ys.length := by simpa using h
      have h3 := ih i h2
      simp only [List.eraseIdx, List.length_cons, h3]
      omega

theorem eraseIdx_get?_succ {α : Type} (xs : List α) (i : Nat) :
    (xs.eraseIdx i).get? i = xs.get? (i + 1) := by
  induction xs generalizing i with
  | nil => simp [List.eraseIdx]
  | cons y ys ih =>
    cases i with
    | zero => simp [List.eraseIdx]
    | succ i => simpa [List.eraseIdx] using ih i

theorem fixedKey_length (key : List Nat) (h : key.length ≤ 32) :
    (key ++ List.replicate (32 - key.length) 0).length = 32 := by
  simp
  omega

theorem getCipher_ok_of_le (key : List Nat) (h : key.length ≤ 32) :
    getCipher key = RRes.ok (key ++ List.replicate (32 - key.length) 0) := by
  simp [getCipher, spliceKey, h, fixedKey_length key h]

theorem getCipher_panic_of_gt (key : List Nat) (h : 32 < key.length) :
    getCipher key = RRes.panic := by
  have h2 : ¬ key.length ≤ 32 := by omega
  simp [getCipher, spliceKey, h2]

theorem encrypt_ok_of_le (A : Aead) (nonce plaintext key : List Nat) (h : key.length ≤ 32) :
    encrypt A nonce plaintext key =
      RRes.ok (A.enc (key ++ List.replicate (32 - key.length) 0) nonce plaintext ++ nonce) := by
  simp [encrypt, getCipher_ok_of_le key h]

theorem decrypt_enc_of_le (A : Aead) (hA : AeadContract A) (nonce plaintext key : List Nat)
    (hn : nonce.length = NONCE_SIZE) (hk : key.length ≤ 32) :
    decrypt A (A.enc (key ++ List.replicate (32 - key.length) 0) nonce plaintext ++ nonce) key =
      RRes.ok plaintext := by
  obtain ⟨hlen, hdec⟩ := hA
  simp only [decrypt, getCipher_ok_of_le key hk]
  have hsplit : (A.enc (key ++ List.replicate (32 - key.length) 0) nonce plaintext ++ nonce).length -
      NONCE_SIZE = (A.enc (key ++ List.replicate (32 - key.length) 0) nonce plaintext).length := by
    simp [hn]
  rw [hsplit]
  have hne : (A.enc (key ++ List.replicate (32 - key.length) 0) nonce plaintext).length ≠ 0 := by
    rw [hlen]
    omega
  rw [if_neg hne, take_length_append, drop_length_append, hdec]

theorem loadDecrypt_write (C : Codec) (A : Aead) (hA : AeadContract A) (hC : CodecContract C)
    (nonce : List Nat) (fs : Fs) (path : List Nat) (j : Journal) (key : List Nat)
    (hk : key.length ≤ 32) (hn : nonce.length = NONCE_SIZE) :
    loadDecrypt C A
      (fsWrite fs path (A.enc (key ++ List.replicate (32 - key.length) 0) nonce (C.ser j) ++ nonce))
      path key = RRes.ok j := by
  simp [loadDecrypt, fsWrite, decrypt_enc_of_le A hA nonce (C.ser j) key hn hk, hC j]

theorem loadState_existing_ok (C : Codec) (A : Aead) (nonce : List Nat) (fs : Fs)
    (a : Journal) (name key : List Nat) (b : Journal) (m : Bool)
    (hload : loadDecrypt C A fs name key = RRes.ok b) :
    loadState C A nonce fs a name key m =
      RRes.ok (fs, { (if m then a.add b else b) with password := key }) := by
  obtain ⟨blob, hblob⟩ : ∃ blob, fs name = some blob := by
    cases hfs : fs name with
    | none =>
      rw [loadDecrypt, hfs] at hload
      exact absurd hload (by simp)
    | some blob => exact ⟨blob, rfl⟩
  simp [loadState, hblob, hload]

theorem loadState_deser_error (C : Codec) (A : Aead) (nonce : List Nat) (fs : Fs)
    (a : Journal) (name key blob bytes : List Nat) (m : Bool)
    (hfs : fs name = some blob)
    (hdec : decrypt A blob key = RRes.ok bytes)
    (hdeser : C.deser bytes = none) :
    loadState C A nonce fs a name key m = RRes.err RErr.deserializationError := by
  have hload : loadDecrypt C A fs name key = RRes.err RErr.deserializationError := by
    simp [loadDecrypt, hfs, hdec, hdeser]
  simp [loadState, hfs, hload]

theorem loadState_creates (C : Codec) (A : Aead) (hA : AeadContract A) (hC : CodecContract C)
    (nonce : List Nat) (fs : Fs) (a : Journal) (name key : List Nat)
    (hmiss : fs name = none) (hk : key.length ≤ 32) (hn : nonce.length = NONCE_SIZE) :
    ∃ blob,
      saveEncrypt C A nonce fs name (Journal.new name) key = RRes.ok (fsWrite fs name blob) ∧
      loadState C A nonce fs a name key false =
        RRes.ok (fsWrite fs name blob, { Journal.new name with password := key }) ∧
      loadDecrypt C A (fsWrite fs name blob) name key = RRes.ok (Journal.new name) := by
  refine ⟨A.enc (key ++ List.replicate (32 - key.length) 0) nonce (C.ser (Journal.new name)) ++
    nonce, ?_, ?_, ?_⟩
  · simp [saveEncrypt, encrypt_ok_of_le A nonce (C.ser (Journal.new name)) key hk]
  · have hld := loadDecrypt_write C A hA hC nonce fs name (Journal.new name) key hk hn
    simp [loadState, hmiss, saveEncrypt,
      encrypt_ok_of_le A nonce (C.ser (Journal.new name)) key hk, hld]
  · exact loadDecrypt_write C A hA hC nonce fs name (Journal.new name) key hk hn

theorem loadState_missing_long_key_panics (C : Codec) (A : Aead) (nonce : List Nat)
    (fs : Fs) (a : Journal) (name key : List Nat)
    (hmiss : fs name = none) (hk : 32 < key.length) :
    loadState C A nonce fs a name key false = RRes.panic := by
  have hg := getCipher_panic_of_gt key hk
  simp [loadState, hmiss, saveEncrypt, encrypt, hg]

theorem selectNext_some {α : Type} (items : List α) (j : Nat) (hj : j < items.length) :
    SelectionList.selectNext ⟨items, some j⟩ =
      (⟨items, some ((j + 1) % items.length)⟩ : SelectionList α) := by
  simp only [SelectionList.selectNext, SelectionList.nextIndex]
  by_cases h : j + 1 ≥ items.length
  · have he : j + 1 = items.length := by omega
    simp [h, he]
  · simp [h, Nat.mod_eq_of_lt (by omega : j + 1 < items.length)]

theorem selectNextIter_some {α : Type} (items : List α) (j k : Nat) (hj : j < items.length) :
    SelectionList.selectNextIter k ⟨items, some j⟩ =
      (⟨items, some ((j + k) % items.length)⟩ : SelectionList α) := by
  induction k generalizing j with
  | zero => simp [SelectionList.selectNextIter, Nat.mod_eq_of_lt hj]
  | succ k ih =>
    rw [SelectionList.selectNextIter, selectNext_some items j hj,
      ih ((j + 1) % items.length) (Nat.mod_lt _ (by omega))]
    have harith : ((j + 1) % items.length + k) % items.length =
        (j + (k + 1)) % items.length := by
      rw [Nat.mod_add_mod]
      have : j + 1 + k = j + (k + 1) := by omega
      rw [this]
    rw [harith]

/-- C1 (code bug): starting from a state satisfying invariant I1, the public
mutation `clear_items` empties the item vector but leaves the selection
cursor untouched, so the run ends in a state with `selection = Some 0` and
zero items — the invariant is not re-established by this length-changing
mutation. -/
theorem clearItems_breaks_selection_invariant :
    SelectionList.invariant (⟨[0], some 0⟩ : SelectionList Nat) ∧
    SelectionList.run [SelectionList.Op.clearItems] (⟨[0], some 0⟩ : SelectionList Nat) =
      some (⟨[], some 0⟩ : SelectionList Nat) ∧
    ¬ SelectionList.invariant (⟨[], some 0⟩ : SelectionList Nat) := by
  decide

/-- C3 counterexample: for a 33-byte password, key derivation does not
truncate to 32 bytes — `get_cipher` never returns a key at all (the splice
range `0..33` exceeds the 32-byte buffer and panics). -/
theorem derive_key_truncation_counterexample :
    ¬ ∃ k, getCipher (List.replicate 33 97) = RRes.ok k := by
  have h : getCipher (List.replicate 33 97) = RRes.panic :=
    getCipher_panic_of_gt (List.replicate 33 97) (by decide)
  rw [h]
  rintro ⟨k, hk⟩
  exact RRes.noConfusion hk

/-- C3 (amended): for every password of at most 32 bytes, key derivation
copies the password bytes into a 32-byte zero-padded buffer, yielding a
valid 32-byte key; for a password longer than 32 bytes it panics (out of
bounds `Vec::splice`) instead of truncating. -/
theorem derive_key_pads_or_panics (key : List Nat) :
    (key.length ≤ 32 →
      getCipher key = RRes.ok (key ++ List.replicate (32 - key.length) 0) ∧
      (key ++ List.replicate (32 - key.length) 0).length = 32) ∧
    (32 < key.length → getCipher key = RRes.panic) :=
  ⟨fun h => ⟨getCipher_ok_of_le key h, fixedKey_length key h⟩,
   fun h => getCipher_panic_of_gt key h⟩

theorem derive_key_pads_or_panics_witness :
    getCipher (strBytes "hunter2") =
      RRes.ok (strBytes "hunter2" ++ List.replicate (32 - (strBytes "hunter2").length) 0) ∧
    (strBytes "hunter2" ++ List.replicate (32 - (strBytes "hunter2").length) 0).length = 32 :=
  (derive_key_pads_or_panics (strBytes "hunter2")).1 (by decide)

/-- C2 (amended): for every AEAD implementation satisfying the crate
contract, every 12-byte nonce, every plaintext, and every password of at
most 32 bytes, `decrypt (encrypt p k) k` succeeds and returns exactly
`p`. -/
theorem encrypt_decrypt_roundtrip (A : Aead) (hA : AeadContract A)
    (nonce plaintext key : List Nat) (hn : nonce.length = NONCE_SIZE)
    (hk : key.length ≤ 32) :
    ∃ c, encrypt A nonce plaintext key = RRes.ok c ∧
      decrypt A c key = RRes.ok plaintext :=
  ⟨A.enc (key ++ List.replicate (32 - key.length) 0) nonce plaintext ++ nonce,
    encrypt_ok_of_le A nonce plaintext key hk,
    decrypt_enc_of_le A hA nonce plaintext key hn hk⟩

theorem encrypt_decrypt_roundtrip_witness :
    ∃ c, encrypt toyAead (List.replicate 12 0) [1, 2, 3] (strBytes "hunter2") = RRes.ok c ∧
      decrypt toyAead c (strBytes "hunter2") = RRes.ok [1, 2, 3] :=
  encrypt_decrypt_roundtrip toyAead toyAead_contract (List.replicate 12 0) [1, 2, 3]
    (strBytes "hunter2") (by decide) (by decide)

/-- C2 counterexample: the round-trip does not hold for every password —
with a 33-byte password `encrypt` panics inside `get_cipher` (out-of-bounds
splice), so no ciphertext is ever produced. -/
theorem encrypt_decrypt_roundtrip_counterexample :
    ¬ ∀ (A : Aead), AeadContract A → ∀ (nonce plaintext key : List Nat),
      nonce.length = NONCE_SIZE →
      ∃ c, encrypt A nonce plaintext key = RRes.ok c ∧
        decrypt A c key = RRes.ok plaintext := by
  intro h
  obtain ⟨c, hc, -⟩ := h toyAead toyAead_contract (List.replicate 12 0) []
    (List.replicate 33 97) (by decide)
  have hp : encrypt toyAead (List.replicate 12 0) [] (List.replicate 33 97) = RRes.panic := by
    simp only [encrypt]
    rw [getCipher_panic_of_gt (List.replicate 33 97) (by decide)]
  rw [hp] at hc
  exact RRes.noConfusion hc

/-- C10: `insert_item(Some(i), item, select)` with `i` strictly greater than
the length is a panic (out-of-bounds `Vec::insert`), not a graceful no-op or
error; under the precondition `i ≤ len` it is total, the item lands at
position `i`, the length grows by one, and with `select` true the selection
becomes `Some i` (otherwise it is unchanged). -/
theorem insertItem_panics_or_inserts {α : Type} (l : SelectionList α) (i : Nat) (x : α)
    (s : Bool) :
    (l.items.length < i → l.insertItem (some i) x s = none) ∧
    (i ≤ l.items.length →
      l.insertItem (some i) x s =
        some { items := insertAt i x l.items,
               selection := if s then some i else l.selection } ∧
      (insertAt i x l.items).get? i = some x ∧
      (insertAt i x l.items).length = l.items.length + 1) := by
  constructor
  · intro h
    have h2 : ¬ i ≤ l.items.length := by omega
    simp [SelectionList.insertItem, h2]
  · intro h
    exact ⟨by simp [SelectionList.insertItem, h], insertAt_get? i x l.items h,
      insertAt_length i x l.items⟩

theorem insertItem_panics_or_inserts_witness :
    (⟨[5], some 0⟩ : SelectionList Nat).insertItem (some 2) 7 true = none ∧
    (⟨[5], some 0⟩ : SelectionList Nat).insertItem (some 1) 7 true =
      some (⟨[5, 7], some 1⟩ : SelectionList Nat) := by
  refine ⟨(insertItem_panics_or_inserts (⟨[5], some 0⟩ : SelectionList Nat) 2 7 true).1
    (by decide), ?_⟩
  exact ((insertItem_panics_or_inserts (⟨[5], some 0⟩ : SelectionList Nat) 1 7 true).2
    (by decide)).1

/-- C7 counterexample: on a one-element list with nothing selected, calling
`select_next()` once (n = 1 times) yields selection `Some 0`, not the
original `None` — the n-fold cycle property fails for the no-selection
starting state. -/
theorem select_next_cycle_counterexample :
    0 < (⟨[0], none⟩ : SelectionList Nat).items.length ∧
    SelectionList.selectNextIter (⟨[0], none⟩ : SelectionList Nat).items.length
      (⟨[0], none⟩ : SelectionList Nat) ≠ (⟨[0], none⟩ : SelectionList Nat) := by
  decide

/-- C7 (amended): on a list of length n > 0 whose selection is `Some i`
with `i` valid, n calls of `select_next` return the list to its original
state; advancing past the last element wraps to index 0; `select_next` from
no selection selects index 0; on an empty list it is a no-op leaving the
selection `None`. -/
theorem select_next_cycle_amended {α : Type} (l : SelectionList α) :
    (∀ i, l.selection = some i → i < l.items.length →
      SelectionList.selectNextIter l.items.length l = l) ∧
    (∀ i, l.selection = some i → l.items.length ≤ i + 1 →
      l.selectNext.selection = some 0) ∧
    (l.selection = none → l.items ≠ [] → l.selectNext.selection = some 0) ∧
    (l.items = [] → l.selection = none → l.selectNext = l) := by
  obtain ⟨items, sel⟩ := l
  refine ⟨?_, ?_, ?_, ?_⟩
  · intro i hsel hi
    have hsel2 : sel = some i := hsel
    subst hsel2
    show SelectionList.selectNextIter items.length ⟨items, some i⟩ = ⟨items, some i⟩
    rw [selectNextIter_some items i items.length hi, Nat.add_mod_right,
      Nat.mod_eq_of_lt hi]
  · intro i hsel h
    have hsel2 : sel = some i := hsel
    subst hsel2
    simp [SelectionList.selectNext, SelectionList.nextIndex, h]
  · intro hnone hne
    have hsel2 : sel = none := hnone
    subst hsel2
    have hie : items.isEmpty = false := by
      cases items with
      | nil => exact absurd rfl hne
      | cons a as => rfl
    simp [SelectionList.selectNext, SelectionList.nextIndex, hie]
  · intro he hnone
    have hsel2 : sel = none := hnone
    have hi2 : items = [] := he
    subst hsel2
    subst hi2
    rfl

theorem select_next_cycle_amended_witness :
    SelectionList.selectNextIter 3 (⟨[10, 20, 30], some 1⟩ : SelectionList Nat) =
      (⟨[10, 20, 30], some 1⟩ : SelectionList Nat) :=
  (select_next_cycle_amended (⟨[10, 20, 30], some 1⟩ : SelectionList Nat)).1 1 rfl
    (by decide)

/-- C6: with a valid selected index, `pop_selected` removes and returns that
item; afterwards, if the list became empty the selection is `None`,
otherwise if the removed index was the last valid index the selection
clamps to the new last index, otherwise the selection is unchanged and
points at the item that followed the removed one.  With no selection it
returns `None` and changes nothing. -/
theorem pop_selected_spec {α : Type} (l : SelectionList α) :
    (l.selection = none → l.popSelected = some (none, l)) ∧
    (∀ i, ∀ hi : i < l.items.length, l.selection = some i →
      ∃ l2, l.popSelected = some (some (l.items.get ⟨i, hi⟩), l2) ∧
        l2.items = l.items.eraseIdx i ∧
        (l2.items.length = 0 → l2.selection = none) ∧
        (l2.items.length ≠ 0 → i + 1 = l.items.length →
          l2.selection = some (l2.items.length - 1)) ∧
        (i + 1 < l.items.length →
          l2.selection = some i ∧ l2.items.get? i = l.items.get? (i + 1))) := by
  constructor
  · intro h
    simp [SelectionList.popSelected, h]
  · intro i hi hsel
    have hlen2 : (l.items.eraseIdx i).length = l.items.length - 1 :=
      eraseIdx_length_of_lt l.items i hi
    refine ⟨{ items := l.items.eraseIdx i,
              selection := if (l.items.eraseIdx i).isEmpty then none
                else if i ≥ (l.items.eraseIdx i).length then
                  some ((l.items.eraseIdx i).length - 1)
                else l.selection }, ?_, rfl, ?_, ?_, ?_⟩
    · simp only [SelectionList.popSelected, hsel]
      rw [dif_pos hi]
    · intro h0
      have he : l.items.eraseIdx i = [] := List.length_eq_zero.mp h0
      simp [he]
    · intro hne hlast
      have he : (l.items.eraseIdx i).isEmpty = false := by
        cases hcase : l.items.eraseIdx i with
        | nil => rw [hcase] at hne; simp at hne
        | cons a as => rfl
      have hge : i ≥ (l.items.eraseIdx i).length := by
        rw [hlen2]
        omega
      simp [he, hge]
    · intro hlt
      have hpos : 0 < (l.items.eraseIdx i).length := by
        rw [hlen2]
        omega
      have he : (l.items.eraseIdx i).isEmpty = false := by
        cases hcase : l.items.eraseIdx i with
        | nil => rw [hcase] at hpos; simp at hpos
        | cons a as => rfl
      have hnge : ¬ i ≥ (l.items.eraseIdx i).length := by
        rw [hlen2]
        omega
      exact ⟨by simp [he, hnge, hsel], eraseIdx_get?_succ l.items i⟩

theorem pop_selected_spec_witness :
    ∃ l2, (⟨[10, 20, 30], some 1⟩ : SelectionList Nat).popSelected = some (some 20, l2) := by
  obtain ⟨l2, h1, -, -, -, -⟩ :=
    (pop_selected_spec (⟨[10, 20, 30], some 1⟩ : SelectionList Nat)).2 1 (by decide) rfl
  exact ⟨l2, h1⟩

/-- C8: on a non-empty list whose selected item is the last element,
`shift_next()` (relocating the item to the front) followed by
`shift_prev()` (relocating it back to the end) restores both the original
item order and the original selection. -/
theorem shift_next_then_prev_restores {α : Type} (l : SelectionList α) (hne : l.items ≠ [])
    (hsel : l.selection = some (l.items.length - 1)) :
    ∃ l2, l.shiftNext = RRes.ok l2 ∧ l2.shiftPrev = RRes.ok l := by
  obtain ⟨items, sel⟩ := l
  have hne2 : items ≠ [] := hne
  have hsel2 : sel = some (items.length - 1) := hsel
  subst hsel2
  have hpos : 0 < items.length := List.length_pos.mpr hne2
  refine ⟨⟨items.getLast hne2 :: items.dropLast, some 0⟩, ?_, ?_⟩
  · simp only [SelectionList.shiftNext]
    rw [if_neg (by omega : ¬ items.length = 0)]
    rw [if_neg (by omega : ¬ items.length - 1 < items.length - 1)]
    rw [List.getLast?_eq_getLast items hne2]
  · simp only [SelectionList.shiftPrev]
    rw [if_neg (by decide : ¬ (0 : Nat) > 0)]
    rw [List.dropLast_append_getLast hne2]

theorem shift_next_then_prev_restores_witness :
    ∃ l2, (⟨[1, 2], some 1⟩ : SelectionList Nat).shiftNext = RRes.ok l2 ∧
      l2.shiftPrev = RRes.ok (⟨[1, 2], some 1⟩ : SelectionList Nat) :=
  shift_next_then_prev_restores (⟨[1, 2], some 1⟩ : SelectionList Nat) (by decide) rfl

/-- C4 (amended): `impl Add for Journal` keeps a's name and password and
concatenates the project lists in order with the selection reset; the
user-facing merge path (`load_state` with merge) produces exactly that
journal except that its password is then overwritten with the key used to
load b's file. -/
theorem merge_keeps_name_concats_projects (C : Codec) (A : Aead) (nonce : List Nat)
    (fs : Fs) (a : Journal) (name key : List Nat) (b : Journal)
    (hload : loadDecrypt C A fs name key = RRes.ok b) :
    (a.add b).name = a.name ∧ (a.add b).password = a.password ∧
    (a.add b).projects.items = a.projects.items ++ b.projects.items ∧
    (a.add b).projects.selection = none ∧
    loadState C A nonce fs a name key true =
      RRes.ok (fs, { a.add b with password := key }) := by
  refine ⟨rfl, rfl, rfl, rfl, ?_⟩
  exact loadState_existing_ok C A nonce fs a name key b true hload

theorem merge_keeps_name_concats_projects_witness :
    ∃ out, loadState journalCodec toyAead (List.replicate 12 0)
      (fsWrite (fun _ => none) (strBytes "f")
        (toyAead.enc (List.replicate 32 0) (List.replicate 12 0)
          (journalCodec.ser Journal.default) ++ List.replicate 12 0))
      { Journal.default with password := strBytes "a" } (strBytes "f") [] true =
      RRes.ok out := by
  have hld := loadDecrypt_write journalCodec toyAead toyAead_contract journalCodec_contract
    (List.replicate 12 0) (fun _ => none) (strBytes "f") Journal.default []
    (by decide) (by decide)
  obtain ⟨-, -, -, -, h5⟩ := merge_keeps_name_concats_projects journalCodec toyAead
    (List.replicate 12 0) _ { Journal.default with password := strBytes "a" }
    (strBytes "f") [] Journal.default hld
  exact ⟨_, h5⟩

/-- C4 counterexample: the user-facing merge path does not keep a's
password — it overwrites the merged journal's password with the key used to
load b's file.  Merging under the empty key into a journal whose password
is "a" yields the empty password. -/
theorem merge_path_password_counterexample :
    ∃ out, loadState journalCodec toyAead (List.replicate 12 0)
        (fsWrite (fun _ => none) (strBytes "f")
          (toyAead.enc (List.replicate 32 0) (List.replicate 12 0)
            (journalCodec.ser Journal.default) ++ List.replicate 12 0))
        { Journal.default with password := strBytes "a" } (strBytes "f") [] true =
        RRes.ok out ∧
      out.2.password ≠ ({ Journal.default with password := strBytes "a" } : Journal).password := by
  have hld := loadDecrypt_write journalCodec toyAead toyAead_contract journalCodec_contract
    (List.replicate 12 0) (fun _ => none) (strBytes "f") Journal.default []
    (by decide) (by decide)
  have h := loadState_existing_ok journalCodec toyAead (List.replicate 12 0) _
    { Journal.default with password := strBytes "a" } (strBytes "f") [] Journal.default true hld
  refine ⟨_, h, ?_⟩
  decide

/-- C5 (amended): when the decrypted contents of an existing file fail to
deserialize as a Journal, the load operation returns the deserialization
error as-is; no retry as a single Project occurs (the `From<Project> for
Journal` promotion exists in the code but is never invoked on the load
path). -/
theorem load_deser_failure_returns_error (C : Codec) (A : Aead) (nonce : List Nat)
    (fs : Fs) (a : Journal) (name key blob bytes : List Nat) (m : Bool)
    (hfs : fs name = some blob)
    (hdec : decrypt A blob key = RRes.ok bytes)
    (hdeser : C.deser bytes = none) :
    loadState C A nonce fs a name key m = RRes.err RErr.deserializationError :=
  loadState_deser_error C A nonce fs a name key blob bytes m hfs hdec hdeser

theorem load_deser_failure_returns_error_witness :
    loadState journalCodec toyAead (List.replicate 12 0)
      (fsWrite (fun _ => none) (strBytes "f")
        (toyAead.enc (List.replicate 32 0) (List.replicate 12 0)
          (serProject Project.default) ++ List.replicate 12 0))
      Journal.default (strBytes "f") [] false = RRes.err RErr.deserializationError := by
  refine load_deser_failure_returns_error journalCodec toyAead (List.replicate 12 0) _
    Journal.default (strBytes "f") []
    (toyAead.enc (List.replicate 32 0) (List.replicate 12 0) (serProject Project.default) ++
      List.replicate 12 0)
    (serProject Project.default) false ?_ ?_ ?_
  · simp [fsWrite]
  · exact decrypt_enc_of_le toyAead toyAead_contract (List.replicate 12 0)
      (serProject Project.default) [] (by decide) (by decide)
  · decide

/-- C5 counterexample: a byte buffer exists (the encoding of a standalone
default Project) that fails to deserialize as a Journal yet deserializes as
a Project, and on a file decrypting to exactly that buffer the load
operation returns the deserialization error — it does not promote the
Project into a one-project Journal. -/
theorem load_no_project_fallback_counterexample :
    deserJournal (serProject Project.default) = none ∧
    deserProject (serProject Project.default) = some Project.default ∧
    loadState journalCodec toyAead (List.replicate 12 0)
        (fsWrite (fun _ => none) (strBytes "f")
          (toyAead.enc (List.replicate 32 0) (List.replicate 12 0)
            (serProject Project.default) ++ List.replicate 12 0))
        Journal.default (strBytes "f") [] false = RRes.err RErr.deserializationError ∧
    ∀ out, loadState journalCodec toyAead (List.replicate 12 0)
        (fsWrite (fun _ => none) (strBytes "f")
          (toyAead.enc (List.replicate 32 0) (List.replicate 12 0)
            (serProject Project.default) ++ List.replicate 12 0))
        Journal.default (strBytes "f") [] false ≠ RRes.ok out := by
  have herr : loadState journalCodec toyAead (List.replicate 12 0)
      (fsWrite (fun _ => none) (strBytes "f")
        (toyAead.enc (List.replicate 32 0) (List.replicate 12 0)
          (serProject Project.default) ++ List.replicate 12 0))
      Journal.default (strBytes "f") [] false = RRes.err RErr.deserializationError := by
    refine loadState_deser_error journalCodec toyAead (List.replicate 12 0) _
      Journal.default (strBytes "f") []
      (toyAead.enc (List.replicate 32 0) (List.replicate 12 0) (serProject Project.default) ++
        List.replicate 12 0)
      (serProject Project.default) false ?_ ?_ ?_
    · simp [fsWrite]
    · exact decrypt_enc_of_le toyAead toyAead_contract (List.replicate 12 0)
        (serProject Project.default) [] (by decide) (by decide)
    · decide
  refine ⟨by decide, deserProject_ser Project.default, herr, ?_⟩
  intro out hout
  rw [herr] at hout
  exact RRes.noConfusion hout

/-- C9 (amended): for a missing file and a password of at most 32 bytes,
the load operation first saves `Journal::new(name)` — the default journal
with its *name set to the file name*, not `Journal::default()` — to that
filepath under the given password, then reads, decrypts and deserializes
that file; the journal subsequently loaded from the new file equals
`Journal.new name` (and the in-memory journal is that value with its
password set to the key).  For a password longer than 32 bytes the load
operation panics inside `get_cipher`'s splice before saving anything. -/
theorem load_missing_creates_new_journal (C : Codec) (A : Aead) (hA : AeadContract A)
    (hC : CodecContract C) (nonce : List Nat) (fs : Fs) (a : Journal) (name key : List Nat)
    (hmiss : fs name = none) (hn : nonce.length = NONCE_SIZE) :
    (key.length ≤ 32 →
      ∃ blob,
        saveEncrypt C A nonce fs name (Journal.new name) key =
          RRes.ok (fsWrite fs name blob) ∧
        loadState C A nonce fs a name key false =
          RRes.ok (fsWrite fs name blob, { Journal.new name with password := key }) ∧
        loadDecrypt C A (fsWrite fs name blob) name key = RRes.ok (Journal.new name)) ∧
    (32 < key.length → loadState C A nonce fs a name key false = RRes.panic) :=
  ⟨fun hk => loadState_creates C A hA hC nonce fs a name key hmiss hk hn,
   fun hk => loadState_missing_long_key_panics C A nonce fs a name key hmiss hk⟩

theorem load_missing_creates_new_journal_witness :
    (∃ blob,
      saveEncrypt journalCodec toyAead (List.replicate 12 0) (fun _ => none) (strBytes "j")
        (Journal.new (strBytes "j")) [] =
        RRes.ok (fsWrite (fun _ => none) (strBytes "j") blob) ∧
      loadState journalCodec toyAead (List.replicate 12 0) (fun _ => none) Journal.default
        (strBytes "j") [] false =
        RRes.ok (fsWrite (fun _ => none) (strBytes "j") blob,
          { Journal.new (strBytes "j") with password := [] }) ∧
      loadDecrypt journalCodec toyAead (fsWrite (fun _ => none) (strBytes "j") blob)
        (strBytes "j") [] = RRes.ok (Journal.new (strBytes "j"))) ∧
    loadState journalCodec toyAead (List.replicate 12 0) (fun _ => none) Journal.default
      (strBytes "j") (List.replicate 33 97) false = RRes.panic :=
  ⟨(load_missing_creates_new_journal journalCodec toyAead toyAead_contract
      journalCodec_contract (List.replicate 12 0) (fun _ => none) Journal.default
      (strBytes "j") [] rfl (by decide)).1 (by decide),
   (load_missing_creates_new_journal journalCodec toyAead toyAead_contract
      journalCodec_contract (List.replicate 12 0) (fun _ => none) Journal.default
      (strBytes "j") (List.replicate 33 97) rfl (by decide)).2 (by decide)⟩

/-- C9 counterexample: loading a missing file named "j" materializes and
subsequently loads a journal whose name is "j", which is not equal to the
default-constructed journal (whose name is "New Journal"). -/
theorem load_missing_default_counterexample :
    ∃ out, loadState journalCodec toyAead (List.replicate 12 0) (fun _ => none)
        Journal.default (strBytes "j") [] false = RRes.ok out ∧
      out.2 ≠ Journal.default := by
  obtain ⟨blob, -, hrun, -⟩ := loadState_creates journalCodec toyAead toyAead_contract
    journalCodec_contract (List.replicate 12 0) (fun _ => none) Journal.default
    (strBytes "j") [] rfl (by decide) (by decide)
  refine ⟨_, hrun, ?_⟩
  show ({ Journal.new (strBytes "j") with password := [] } : Journal) ≠ Journal.default
  decide

end DevJournal
